import Mathlib

/-!
Verification of the pantry-agent coordinator core: the feasibility checking
algorithm (`Coordinator.checkFeasible`), the meal-plan structural validator
(`MealPlan.IsValid`), and the agent control loop (`Coordinator.Run`) of the
bedrock and ollama coordinators.

Modelling conventions:
* Go `float64` quantities are modelled as exact rationals (`Rat`); the
  tolerance constant `eps = 1e-9` is the rational `1/10^9`.
* The loosely-typed JSON payloads (`map[string]any`) are modelled at the
  boundary: a pantry ingredient / recipe ingredient / recipe is a record of
  the fields the Go code extracts with its `getStr`/`getNum`/`getBool`
  helpers (absent or ill-typed fields give the Go zero values, so every
  input map is represented by such a record).
* Problem strings are collected as an inductive `Problem` carrying the
  dynamic parts of each `fmt.Sprintf` call and rendered to strings at the
  end; `%.4g` numeric formatting is abstracted by `fmtQty`.
* `encoding/json` parsing of the final JSON text into a `MealPlan` is an
  oracle `parse : String → Except String MealPlan` supplied with the
  environment; both call sites of `json.Unmarshal` in the Go code use the
  same deterministic function, hence the same oracle.
-/

namespace PantryAgent

/-- Meal from part_011: `{id, name, servings}`. -/
structure Meal where
  id : String
  name : String
  servings : Int
deriving DecidableEq

/-- DayPlan from part_011: `{day, meals}`. -/
structure DayPlan where
  day : Int
  meals : List Meal
deriving DecidableEq

/-- MealPlan from part_011: `{summary, days_planned}`. -/
structure MealPlan where
  summary : String
  daysPlanned : List DayPlan
deriving DecidableEq

/-- `MealPlan.IsValid` from part_011: non-empty `days_planned`, each day has
meals, each meal has non-empty id/name and positive servings, and the
summary is non-empty. The Go loop returns `false` at the first violation,
which is equivalent to the `all` form below. -/
def MealPlan.IsValid (mp : MealPlan) : Bool :=
  !mp.daysPlanned.isEmpty &&
    mp.daysPlanned.all (fun day =>
      !day.meals.isEmpty &&
        day.meals.all (fun meal =>
          !(meal.id == "") && !(meal.name == "") && decide (0 < meal.servings))) &&
    !(mp.summary == "")

/-- A pantry ingredient as extracted by `checkFeasible`s helpers:
`name = getStr(m,"name")`, `qty = getNum(m,"qty")`, `unit = getStr(m,"unit")`. -/
structure PantryIng where
  name : String
  qty : Rat
  unit : String
deriving DecidableEq

/-- A recipe ingredient as extracted: name/qty/unit/optional. -/
structure NeedIng where
  name : String
  qty : Rat
  unit : String
  optional : Bool
deriving DecidableEq

/-- A recipe as extracted: `id = getStr(r,"id")`, `servings = getNum(r,"servings")`,
`ingredients` list (a non-array or absent `ingredients` key is the empty list). -/
structure RecipeSrc where
  id : String
  servings : Rat
  ingredients : List NeedIng
deriving DecidableEq

/-- Pantry index slot (`pslot` in the Go source). -/
structure Pslot where
  qty : Rat
  unit : String
deriving DecidableEq

/-- Aggregate requirement slot (`req` in the Go source). -/
structure ReqSlot where
  qty : Rat
  unit : String
deriving DecidableEq

/-- Recipe index entry (`rec` in the Go source). -/
structure RecEntry where
  baseServ : Int
  needs : List NeedIng
deriving DecidableEq

/-- The problems appended by `checkFeasible`, one constructor per
`fmt.Sprintf` site, carrying the dynamic arguments. -/
inductive Problem where
  | invalidBaseServings (id : String)
  | missingUnit (id nm : String)
  | nonPositiveQty (id nm : String)
  | unknownRecipe (id : String)
  | nonPositiveServings (id : String)
  | unitConflict (nm curUnit newUnit : String)
  | missingIngredient (nm : String) (q : Rat) (u : String)
  | unitMismatch (nm needUnit haveUnit : String)
  | insufficient (nm : String) (needQ : Rat) (needU : String) (haveQ : Rat) (haveU : String)
deriving DecidableEq

/-- Abstraction of Go `%q` formatting (quoting; escape rules elided). -/
def goQuote (s : String) : String := "\"" ++ s ++ "\""

/-- Abstraction of Go `%.4g` float formatting on our exact rationals. -/
def fmtQty (q : Rat) : String := toString q

/-- Rendering of a problem to the exact Go message shape. -/
def Problem.render : Problem → String
  | .invalidBaseServings id => "recipe " ++ goQuote id ++ " has invalid base servings"
  | .missingUnit id nm => "recipe " ++ goQuote id ++ " ingredient " ++ goQuote nm ++ " missing unit"
  | .nonPositiveQty id nm => "recipe " ++ goQuote id ++ " ingredient " ++ goQuote nm ++ " has non-positive qty"
  | .unknownRecipe id => "unknown recipe id: " ++ goQuote id
  | .nonPositiveServings id => "meal " ++ goQuote id ++ " has non-positive servings"
  | .unitConflict nm cu nu => "unit conflict for " ++ goQuote nm ++ " (" ++ cu ++ " vs " ++ nu ++ ")"
  | .missingIngredient nm q u => "missing ingredient: " ++ nm ++ " (need " ++ fmtQty q ++ " " ++ u ++ ")"
  | .unitMismatch nm nu hu => "unit mismatch: " ++ nm ++ " (need " ++ nu ++ ", have " ++ hu ++ ")"
  | .insufficient nm nq nu hq hu =>
      "insufficient " ++ nm ++ " (need " ++ fmtQty nq ++ " " ++ nu ++ ", have " ++ fmtQty hq ++ " " ++ hu ++ ")"

/-- Go `strings.TrimSpace` space class (ASCII part; the claims only involve
ASCII data). -/
def goIsSpace (c : Char) : Bool :=
  c == ' ' || c == '\t' || c == '\n' || c == '\x0b' || c == '\x0c' || c == '\r'

/-- Go `strings.TrimSpace`. -/
def goTrimSpace (s : String) : String :=
  ⟨((s.data.dropWhile goIsSpace).reverse.dropWhile goIsSpace).reverse⟩

/-- Go `strings.ToLower` (ASCII part). -/
def goToLower (s : String) : String := ⟨s.data.map Char.toLower⟩

/-- Go `strings.HasPrefix`. -/
def goHasPrefix (s pre : String) : Bool := pre.data.isPrefixOf s.data

/-- Go `strings.HasSuffix`. -/
def goHasSuffix (s suf : String) : Bool := suf.data.isSuffixOf s.data

/-- Go string maps: lookup. Keys are unique by construction of `mapInsert`. -/
def mapLookup {α : Type} (m : List (String × α)) (k : String) : Option α :=
  (m.find? (fun p => p.1 == k)).map Prod.snd

/-- Go string maps: insert-or-replace (replacement in place keeps first-insertion
order, a sound rendering of Go map semantics since the final problem list is
sorted before being returned). -/
def mapInsert {α : Type} (m : List (String × α)) (k : String) (v : α) : List (String × α) :=
  if m.any (fun p => p.1 == k) then
    m.map (fun p => if p.1 == k then (k, v) else p)
  else m ++ [(k, v)]

/-- `ltrim` helper: `strings.ToLower(strings.TrimSpace(s))`. -/
def ltrim (s : String) : String := goToLower (goTrimSpace s)

/-- Go `int(float64)` truncation toward zero, on exact rationals. -/
def truncInt (q : Rat) : Int := q.num.tdiv (q.den : Int)

/-- The tolerance `eps = 1e-9`. -/
def eps : Rat := 1 / 1000000000

/-- Pantry indexing loop of `checkFeasible` (accumulator form). -/
def buildPantryIdxAux (idx : List (String × Pslot)) : List PantryIng → List (String × Pslot)
  | [] => idx
  | it :: rest =>
      let nm := ltrim it.name
      if nm == "" then buildPantryIdxAux idx rest
      else buildPantryIdxAux (mapInsert idx nm ⟨it.qty, goTrimSpace it.unit⟩) rest

def buildPantryIdx (pantry : List PantryIng) : List (String × Pslot) :=
  buildPantryIdxAux [] pantry

/-- Ingredient pre-flagging inner loop of the recipe indexing phase. -/
def flagNeedsAux (id : String) (acc : List NeedIng × List Problem) :
    List NeedIng → List NeedIng × List Problem
  | [] => acc
  | x :: rest =>
      let nm := ltrim x.name
      let un := goTrimSpace x.unit
      let ps :=
        if nm != "" && !x.optional then
          let ps1 := if un == "" then acc.2 ++ [Problem.missingUnit id nm] else acc.2
          if !(decide (0 < x.qty)) then ps1 ++ [Problem.nonPositiveQty id nm] else ps1
        else acc.2
      flagNeedsAux id (acc.1 ++ [⟨nm, x.qty, un, x.optional⟩], ps) rest

/-- Recipe indexing loop of `checkFeasible` (accumulator form). -/
def buildRecipeIdxAux (acc : List (String × RecEntry) × List Problem) :
    List RecipeSrc → List (String × RecEntry) × List Problem
  | [] => acc
  | r :: rest =>
      let id := goTrimSpace r.id
      if id == "" then buildRecipeIdxAux acc rest
      else
        let base0 := truncInt r.servings
        let probs1 := if base0 ≤ 0 then acc.2 ++ [Problem.invalidBaseServings id] else acc.2
        let base := if base0 ≤ 0 then 1 else base0
        let (needs, probs2) := flagNeedsAux id ([], probs1) r.ingredients
        buildRecipeIdxAux (mapInsert acc.1 id ⟨base, needs⟩, probs2) rest

def buildRecipeIdx (recipes : List RecipeSrc) : List (String × RecEntry) × List Problem :=
  buildRecipeIdxAux ([], []) recipes

/-- Mutable state of the demand-aggregation phase. -/
structure WalkSt where
  required : List (String × ReqSlot)
  conflicted : List String
  unknownRec : List String
  nonPosServ : List String
  problems : List Problem
deriving DecidableEq

/-- One required-ingredient accumulation step (body of the inner `needs`
loop); the Go locals `q := n.qty * scale` and
`cur := required[n.name]` (zero value `{0, ""}` when absent) are inlined. -/
def accumNeed (scale : Rat) (st : WalkSt) (n : NeedIng) : WalkSt :=
  if n.name == "" || n.unit == "" || !(decide (0 < n.qty)) then st
  else if n.optional then st
  else if ((mapLookup st.required n.name).getD ⟨0, ""⟩).unit != "" &&
      ((mapLookup st.required n.name).getD ⟨0, ""⟩).unit != n.unit then
    if st.conflicted.contains n.name then st
    else
      { st with
        problems := st.problems ++
          [Problem.unitConflict n.name ((mapLookup st.required n.name).getD ⟨0, ""⟩).unit n.unit],
        conflicted := st.conflicted ++ [n.name] }
  else
    { st with
      required := mapInsert st.required n.name
        ⟨((mapLookup st.required n.name).getD ⟨0, ""⟩).qty + n.qty * scale, n.unit⟩ }

def walkNeeds (scale : Rat) (st : WalkSt) : List NeedIng → WalkSt
  | [] => st
  | n :: rest => walkNeeds scale (accumNeed scale st n) rest

/-- Per-meal body of the aggregation loop. -/
def walkMeal (recIdx : List (String × RecEntry)) (st : WalkSt) (m : Meal) : WalkSt :=
  match mapLookup recIdx m.id with
  | none =>
      if st.unknownRec.contains m.id then st
      else
        { st with
          problems := st.problems ++ [Problem.unknownRecipe m.id],
          unknownRec := st.unknownRec ++ [m.id] }
  | some r =>
      if m.servings ≤ 0 then
        if st.nonPosServ.contains m.id then st
        else
          { st with
            problems := st.problems ++ [Problem.nonPositiveServings m.id],
            nonPosServ := st.nonPosServ ++ [m.id] }
      else
        walkNeeds ((m.servings : Rat) / (r.baseServ : Rat)) st r.needs

def walkMeals (recIdx : List (String × RecEntry)) (st : WalkSt) : List Meal → WalkSt
  | [] => st
  | m :: rest => walkMeals recIdx (walkMeal recIdx st m) rest

def walkDays (recIdx : List (String × RecEntry)) (st : WalkSt) : List DayPlan → WalkSt
  | [] => st
  | d :: rest => walkDays recIdx (walkMeals recIdx st d.meals) rest

/-- The aggregation state after indexing the recipes and walking the plan. -/
def aggState (plan : MealPlan) (recipes : List RecipeSrc) : WalkSt :=
  let (recIdx, idxProbs) := buildRecipeIdx recipes
  walkDays recIdx ⟨[], [], [], [], idxProbs⟩ plan.daysPlanned

/-- Required-vs-pantry comparison loop (accumulator form). -/
def comparePhaseAux (pantryIdx : List (String × Pslot)) (acc : List Problem) :
    List (String × ReqSlot) → List Problem
  | [] => acc
  | kv :: rest =>
      let acc2 :=
        match mapLookup pantryIdx kv.1 with
        | none => acc ++ [Problem.missingIngredient kv.1 kv.2.qty kv.2.unit]
        | some p =>
            if p.unit != kv.2.unit then acc ++ [Problem.unitMismatch kv.1 kv.2.unit p.unit]
            else if p.qty + eps < kv.2.qty then
              acc ++ [Problem.insufficient kv.1 kv.2.qty kv.2.unit p.qty p.unit]
            else acc
      comparePhaseAux pantryIdx acc2 rest

def comparePhase (pantryIdx : List (String × Pslot)) (required : List (String × ReqSlot)) :
    List Problem :=
  comparePhaseAux pantryIdx [] required

/-- All problems of a run of `checkFeasible` on an already-parsed plan with
non-empty days, in Go accumulation order. -/
def fullProblems (plan : MealPlan) (pantry : List PantryIng) (recipes : List RecipeSrc) :
    List Problem :=
  let st := aggState plan recipes
  st.problems ++ comparePhase (buildPantryIdx pantry) st.required

/-- `sort.Strings`. -/
def sortStrings (l : List String) : List String := l.mergeSort (fun a b => decide (a ≤ b))

/-- `Coordinator.checkFeasible` after the parse step (part_001, lines 294-494). -/
def checkFeasiblePlan (plan : MealPlan) (pantry : List PantryIng) (recipes : List RecipeSrc) :
    Bool × List String :=
  if plan.daysPlanned.isEmpty then (false, ["days_planned must be non-empty"])
  else
    let problems := fullProblems plan pantry recipes
    if problems.isEmpty then (true, [])
    else (false, sortStrings (problems.map Problem.render))

/-- `Coordinator.checkFeasible` on the final JSON string, with the
`json.Unmarshal` oracle. -/
def checkFeasible (parse : String → Except String MealPlan) (pantry : List PantryIng)
    (recipes : List RecipeSrc) (finalJSON : String) : Except String (Bool × List String) :=
  match parse finalJSON with
  | .error e => .error ("parse plan: " ++ e)
  | .ok plan => .ok (checkFeasiblePlan plan pantry recipes)

/-! ## `InstrumentedCoordinator.checkFeasible`
(coordinator/bedrock/coordinator_instrumented.go, lines 484-684)

Transcribed separately from the instrumented source file; claim C10 compares
it with the plain `checkFeasible` above. The shared records (`PantryIng`,
`Problem`, ...) model the shared package-level types; `mapInsert`,
`mapLookup`, `truncInt`, `goQuote`, `fmtQty`, `Problem.render` and
`sortStrings` model Go builtins and stdlib calls. -/

namespace Instrumented

def eps : Rat := 1 / 1000000000

def ltrim (s : String) : String := goToLower (goTrimSpace s)

def buildPantryIdxAux (idx : List (String × Pslot)) : List PantryIng → List (String × Pslot)
  | [] => idx
  | it :: rest =>
      let nm := ltrim it.name
      if nm == "" then buildPantryIdxAux idx rest
      else buildPantryIdxAux (mapInsert idx nm ⟨it.qty, goTrimSpace it.unit⟩) rest

def buildPantryIdx (pantry : List PantryIng) : List (String × Pslot) :=
  buildPantryIdxAux [] pantry

def flagNeedsAux (id : String) (acc : List NeedIng × List Problem) :
    List NeedIng → List NeedIng × List Problem
  | [] => acc
  | x :: rest =>
      let nm := ltrim x.name
      let un := goTrimSpace x.unit
      let ps :=
        if nm != "" && !x.optional then
          let ps1 := if un == "" then acc.2 ++ [Problem.missingUnit id nm] else acc.2
          if !(decide (0 < x.qty)) then ps1 ++ [Problem.nonPositiveQty id nm] else ps1
        else acc.2
      flagNeedsAux id (acc.1 ++ [⟨nm, x.qty, un, x.optional⟩], ps) rest

def buildRecipeIdxAux (acc : List (String × RecEntry) × List Problem) :
    List RecipeSrc → List (String × RecEntry) × List Problem
  | [] => acc
  | r :: rest =>
      let id := goTrimSpace r.id
      if id == "" then buildRecipeIdxAux acc rest
      else
        let base0 := truncInt r.servings
        let probs1 := if base0 ≤ 0 then acc.2 ++ [Problem.invalidBaseServings id] else acc.2
        let base := if base0 ≤ 0 then 1 else base0
        let (needs, probs2) := flagNeedsAux id ([], probs1) r.ingredients
        buildRecipeIdxAux (mapInsert acc.1 id ⟨base, needs⟩, probs2) rest

def buildRecipeIdx (recipes : List RecipeSrc) : List (String × RecEntry) × List Problem :=
  buildRecipeIdxAux ([], []) recipes

def accumNeed (scale : Rat) (st : WalkSt) (n : NeedIng) : WalkSt :=
  if n.name == "" || n.unit == "" || !(decide (0 < n.qty)) then st
  else if n.optional then st
  else if ((mapLookup st.required n.name).getD ⟨0, ""⟩).unit != "" &&
      ((mapLookup st.required n.name).getD ⟨0, ""⟩).unit != n.unit then
    if st.conflicted.contains n.name then st
    else
      { st with
        problems := st.problems ++
          [Problem.unitConflict n.name ((mapLookup st.required n.name).getD ⟨0, ""⟩).unit n.unit],
        conflicted := st.conflicted ++ [n.name] }
  else
    { st with
      required := mapInsert st.required n.name
        ⟨((mapLookup st.required n.name).getD ⟨0, ""⟩).qty + n.qty * scale, n.unit⟩ }

def walkNeeds (scale : Rat) (st : WalkSt) : List NeedIng → WalkSt
  | [] => st
  | n :: rest => walkNeeds scale (accumNeed scale st n) rest

def walkMeal (recIdx : List (String × RecEntry)) (st : WalkSt) (m : Meal) : WalkSt :=
  match mapLookup recIdx m.id with
  | none =>
      if st.unknownRec.contains m.id then st
      else
        { st with
          problems := st.problems ++ [Problem.unknownRecipe m.id],
          unknownRec := st.unknownRec ++ [m.id] }
  | some r =>
      if m.servings ≤ 0 then
        if st.nonPosServ.contains m.id then st
        else
          { st with
            problems := st.problems ++ [Problem.nonPositiveServings m.id],
            nonPosServ := st.nonPosServ ++ [m.id] }
      else
        walkNeeds ((m.servings : Rat) / (r.baseServ : Rat)) st r.needs

def walkMeals (recIdx : List (String × RecEntry)) (st : WalkSt) : List Meal → WalkSt
  | [] => st
  | m :: rest => walkMeals recIdx (walkMeal recIdx st m) rest

def walkDays (recIdx : List (String × RecEntry)) (st : WalkSt) : List DayPlan → WalkSt
  | [] => st
  | d :: rest => walkDays recIdx (walkMeals recIdx st d.meals) rest

def aggState (plan : MealPlan) (recipes : List RecipeSrc) : WalkSt :=
  let (recIdx, idxProbs) := buildRecipeIdx recipes
  walkDays recIdx ⟨[], [], [], [], idxProbs⟩ plan.daysPlanned

def comparePhaseAux (pantryIdx : List (String × Pslot)) (acc : List Problem) :
    List (String × ReqSlot) → List Problem
  | [] => acc
  | kv :: rest =>
      let acc2 :=
        match mapLookup pantryIdx kv.1 with
        | none => acc ++ [Problem.missingIngredient kv.1 kv.2.qty kv.2.unit]
        | some p =>
            if p.unit != kv.2.unit then acc ++ [Problem.unitMismatch kv.1 kv.2.unit p.unit]
            else if p.qty + eps < kv.2.qty then
              acc ++ [Problem.insufficient kv.1 kv.2.qty kv.2.unit p.qty p.unit]
            else acc
      comparePhaseAux pantryIdx acc2 rest

def comparePhase (pantryIdx : List (String × Pslot)) (required : List (String × ReqSlot)) :
    List Problem :=
  comparePhaseAux pantryIdx [] required

def fullProblems (plan : MealPlan) (pantry : List PantryIng) (recipes : List RecipeSrc) :
    List Problem :=
  let st := aggState plan recipes
  st.problems ++ comparePhase (buildPantryIdx pantry) st.required

def checkFeasiblePlan (plan : MealPlan) (pantry : List PantryIng) (recipes : List RecipeSrc) :
    Bool × List String :=
  if plan.daysPlanned.isEmpty then (false, ["days_planned must be non-empty"])
  else
    let problems := fullProblems plan pantry recipes
    if problems.isEmpty then (true, [])
    else (false, sortStrings (problems.map Problem.render))

def checkFeasible (parse : String → Except String MealPlan) (pantry : List PantryIng)
    (recipes : List RecipeSrc) (finalJSON : String) : Except String (Bool × List String) :=
  match parse finalJSON with
  | .error e => .error ("parse plan: " ++ e)
  | .ok plan => .ok (checkFeasiblePlan plan pantry recipes)

end Instrumented

/-! ## The bedrock agent loop (`Coordinator.Run`, part_001 lines 47-290)

Tool-call arguments and tool-result payloads are opaque JSON strings.
The model invoker, tool provider, and the `json.Unmarshal`-into-`MealPlan`
step are the deterministic functions carried in `Env`. The loop variable
`iter` counting up to `maxIterations` is fuel counting down. Alongside
the Go return value `(string, error)` (as `Except String String`), the
embedding returns the run's dispatch trace: the name of every tool call
whose `tool.Run` was actually invoked, in order. -/

/-- `tools.Call` (part_011 / part_003): name, input JSON, tool-use id. -/
structure ToolCall where
  name : String
  input : String
  toolUseID : String
deriving DecidableEq

/-- Model `Response`: content text plus tool calls. -/
structure Response where
  content : String
  toolCalls : List ToolCall
deriving DecidableEq

/-- `MessagePart` (mock/types.go shape used by the bedrock coordinator). -/
structure MessagePart where
  ptype : String
  text : String := ""
  toolUseID : String := ""
  toolName : String := ""
  data : String := ""
deriving DecidableEq

/-- `Message`: role and content parts. -/
structure Message where
  role : String
  content : List MessagePart
deriving DecidableEq

/-- `Prompt`: the conversation (the tool catalog is not read by the loop logic). -/
structure Prompt where
  messages : List Message
deriving DecidableEq

/-- `ToolResult` (mock/types.go). -/
structure ToolResult where
  toolUseID : String
  toolName : String
  data : String
deriving DecidableEq

/-- `NewToolResultMessage` (mock/types.go lines 40-54). -/
def NewToolResultMessage (results : List ToolResult) : Message :=
  ⟨"user", results.map (fun r =>
    { ptype := "tool_result", toolUseID := r.toolUseID, toolName := r.toolName, data := r.data })⟩

/-- A registered tool: its `Name()` and its `Run` on an opaque JSON input. -/
structure ToolImpl where
  name : String
  run : String → Except String String

/-- The external collaborators and immutable snapshots of a bedrock run. -/
structure Env where
  llm : Prompt → Except String Response
  getTool : String → Except String ToolImpl
  parse : String → Except String MealPlan
  pantry : List PantryIng
  recipes : List RecipeSrc

def appendMsg (p : Prompt) (m : Message) : Prompt := ⟨p.messages ++ [m]⟩

def userTextMessage (t : String) : Message := ⟨"user", [{ ptype := "text", text := t }]⟩

/-- The literal nudge injected when the response is not JSON-shaped
(part_001 line 118). -/
def toolSuggestionText : String :=
  "\x7b\"tool_calls\":[\x7b\"name\":\"pantry_get\",\"input\":\x7b\"current_day\":0\x7d\x7d,\x7b\"name\":\"recipe_get\",\"input\":\x7b\"meal_types\":[\"dinner\"]\x7d\x7d]\x7d"

/-- `json.Marshal` of the `invalid_final_json` corrective map (keys sorted). -/
def invalidFinalMsg (reason : String) : String :=
  "\x7b\"error\":\"invalid_final_json\",\"reason\":\"parse/shape error: " ++ reason ++ "\"\x7d"

/-- `json.Marshal` of the `feasibility_check_failed` corrective map. -/
def feasFailedMsg (reason : String) : String :=
  "\x7b\"error\":\"feasibility_check_failed\",\"reason\":\"" ++ reason ++ "\"\x7d"

/-- `json.Marshal` of a list of strings (escaping elided, as in `goQuote`). -/
def jsonStringArray (xs : List String) : String :=
  "[" ++ String.intercalate "," (xs.map goQuote) ++ "]"

/-- `json.Marshal` of the `infeasible_plan` corrective map (keys sorted). -/
def infeasibleMsg (probs : List String) : String :=
  "\x7b\"details\":" ++ jsonStringArray probs ++
    ",\"error\":\"infeasible_plan\",\"hint\":\"Revise recipe choices so all required ingredients (with units) fit the pantry; then re-send final JSON.\"\x7d"

/-- `json.Marshal` of the `excessive_tool_repetition` corrective map (keys sorted). -/
def excessiveRepetitionText : String :=
  "\x7b\"error\":\"excessive_tool_repetition\",\"hint\":\"You\x27ve already gathered pantry and recipe data multiple times. Use the existing data to select feasible recipes that fit the available ingredients and provide the final JSON plan directly.\"\x7d"

/-- The two data-gathering tools guarded against repetition. -/
def isDataTool (n : String) : Bool := n == "pantry_get" || n == "recipe_get"

/-- Bump one counter in the per-run map `toolsAlreadyCalled`. -/
def bump (counts : String → Nat) (n : String) : String → Nat :=
  fun x => if x = n then counts n + 1 else counts x

/-- The repetition-guard pass over a batch (part_001 lines 197-207):
increments each requested tool's counter in order; stops and flags at the
first data-gathering tool whose count exceeds 2. -/
def bumpCalls : List ToolCall → (String → Nat) → (String → Nat) × Bool
  | [], counts => (counts, false)
  | c :: rest, counts =>
      if isDataTool c.name && decide (2 < bump counts c.name c.name) then
        (bump counts c.name, true)
      else bumpCalls rest (bump counts c.name)

/-- The assistant message recording the requested calls (part_001 lines 226-239). -/
def assistantMessage (res : Response) : Message :=
  ⟨"assistant",
    (if res.content != "" then [{ ptype := "text", text := res.content }] else []) ++
      res.toolCalls.map (fun c =>
        { ptype := "tool_use", toolUseID := c.toolUseID, toolName := c.name, data := c.input })⟩

/-- Sequential dispatch of a batch (part_001 lines 246-279): lookup failure
and run failure become error payloads; each successful lookup whose `Run`
is invoked contributes its name to the dispatch trace. -/
def dispatchCalls (env : Env) : List ToolCall → List ToolResult × List String
  | [] => ([], [])
  | c :: rest =>
      let (rs, tr) := dispatchCalls env rest
      match env.getTool c.name with
      | .error e =>
          (⟨c.toolUseID, c.name,
            "\x7b\"error\":\"tool " ++ goQuote c.name ++ " not found: " ++ e ++ "\"\x7d"⟩ :: rs, tr)
      | .ok tool =>
          match tool.run c.input with
          | .error e =>
              (⟨c.toolUseID, tool.name,
                "\x7b\"error\":\"tool " ++ goQuote c.name ++ " failed: " ++ e ++ "\"\x7d"⟩ :: rs,
               c.name :: tr)
          | .ok out => (⟨c.toolUseID, tool.name, out⟩ :: rs, c.name :: tr)

/-- The iteration loop of `Coordinator.Run` (part_001 lines 61-289), returning
the Go result together with the dispatch trace. -/
def runLoop (env : Env) : Nat → Prompt → (String → Nat) → Except String String × List String
  | 0, _, _ => (.ok "", [])
  | fuel + 1, prompt, counts =>
      match env.llm prompt with
      | .error e => (.error ("invoke failed: " ++ e), [])
      | .ok res =>
          if res.toolCalls.isEmpty then
            let finalJSON := goTrimSpace res.content
            if finalJSON == "" || !goHasPrefix finalJSON "\x7b" || !goHasSuffix finalJSON "\x7d" then
              runLoop env fuel (appendMsg prompt (userTextMessage toolSuggestionText)) counts
            else
              match env.parse finalJSON with
              | .error e =>
                  runLoop env fuel (appendMsg prompt (userTextMessage (invalidFinalMsg e))) counts
              | .ok plan =>
                  if !plan.IsValid then
                    runLoop env fuel
                      (appendMsg prompt (userTextMessage (invalidFinalMsg "<nil>"))) counts
                  else
                    match checkFeasible env.parse env.pantry env.recipes finalJSON with
                    | .error ferr =>
                        runLoop env fuel
                          (appendMsg prompt (userTextMessage (feasFailedMsg ferr))) counts
                    | .ok (feasible, probs) =>
                        if feasible then (.ok finalJSON, [])
                        else
                          runLoop env fuel
                            (appendMsg prompt (userTextMessage (infeasibleMsg probs))) counts
          else
            let (counts2, flag) := bumpCalls res.toolCalls counts
            if flag then
              runLoop env fuel (appendMsg prompt (userTextMessage excessiveRepetitionText)) counts2
            else
              let prompt2 := appendMsg prompt (assistantMessage res)
              let (results, disp) := dispatchCalls env res.toolCalls
              let prompt3 :=
                if results.isEmpty then prompt2
                else appendMsg prompt2 (NewToolResultMessage results)
              let (out, tr) := runLoop env fuel prompt3 counts2
              (out, disp ++ tr)

/-! ## The ollama agent loop (`Coordinator.Run`, coordinator/ollama/coordinator.go) -/

/-- Ollama `Message`: role, flat content, tool name for tool messages. -/
structure OMessage where
  role : String
  content : String
  name : String := ""
deriving DecidableEq

/-- Ollama `Prompt`. -/
structure OPrompt where
  messages : List OMessage
deriving DecidableEq

/-- `Prompt.HasToolResult` (part_006 lines 20-29). -/
def OPrompt.HasToolResult (p : OPrompt) (tool : String) : Bool :=
  p.messages.any (fun m => m.role == "tool" && m.name == tool)

/-- Ollama `ToolCall`: name and the canonical JSON of its args map. -/
structure OToolCall where
  name : String
  args : String
deriving DecidableEq

/-- Ollama `Response`. -/
structure OResponse where
  content : String
  toolCalls : List OToolCall
deriving DecidableEq

structure OEnv where
  llm : OPrompt → Except String OResponse
  getTool : String → Except String ToolImpl

/-- `dedupeToolCalls` (coordinator.go lines 187-201): keep the first call per
(name, marshalled-args) key. -/
def dedupeAux (seen : List String) : List OToolCall → List OToolCall
  | [] => []
  | c :: rest =>
      let key := c.name ++ ":" ++ c.args
      if seen.contains key then dedupeAux seen rest
      else c :: dedupeAux (seen ++ [key]) rest

def dedupeToolCalls (calls : List OToolCall) : List OToolCall := dedupeAux [] calls

def ollamaNudgeText : String :=
  "Before finalizing, call pantry_get (with current_day) and recipe_get (optionally with meal_types). Then use those results and return ONLY the final JSON object."

/-- The sequential tool loop of the ollama `Run` (coordinator.go lines 133-176):
lookup failure and run failure abort with a propagated error; a successful
result is appended as a `tool` message. -/
def ollamaToolPhase (env : OEnv) (p : OPrompt) : List OToolCall → Except String OPrompt
  | [] => .ok p
  | c :: rest =>
      match env.getTool c.name with
      | .error e => .error ("failed to get tool " ++ goQuote c.name ++ ": " ++ e)
      | .ok tool =>
          match tool.run c.args with
          | .error e => .error ("failed to run tool " ++ goQuote c.name ++ ": " ++ e)
          | .ok result =>
              ollamaToolPhase env ⟨p.messages ++ [⟨"tool", result, tool.name⟩]⟩ rest

/-- The iteration loop of the ollama `Coordinator.Run` (coordinator.go lines 55-182). -/
def ollamaRunLoop (env : OEnv) : Nat → OPrompt → Except String String
  | 0, _ => .ok ""
  | fuel + 1, prompt =>
      match env.llm prompt with
      | .error e => .error ("failed to invoke LLM: " ++ e)
      | .ok res =>
          if res.toolCalls.isEmpty && res.content != "" then
            if !(prompt.HasToolResult "pantry_get" && prompt.HasToolResult "recipe_get") then
              ollamaRunLoop env fuel ⟨prompt.messages ++ [⟨"user", ollamaNudgeText, ""⟩]⟩
            else .ok res.content
          else if res.toolCalls.isEmpty && res.content == "" then
            .error "no tool_calls and no final content"
          else
            match ollamaToolPhase env prompt (dedupeToolCalls res.toolCalls) with
            | .error e => .error e
            | .ok p2 => ollamaRunLoop env fuel p2

/-! ## Theorems -/

/-- The structural invariant exactly as claim C5 words it (days_planned
non-empty, every day's meals non-empty, every meal with non-empty id and
name and positive servings) — deliberately without the summary condition,
for comparison with the code's `MealPlan.IsValid`. -/
def specStructuralInvariant (mp : MealPlan) : Prop :=
  mp.daysPlanned ≠ [] ∧ ∀ d ∈ mp.daysPlanned, d.meals ≠ [] ∧
    ∀ m ∈ d.meals, m.id ≠ "" ∧ m.name ≠ "" ∧ 0 < m.servings

instance (mp : MealPlan) : Decidable (specStructuralInvariant mp) := by
  unfold specStructuralInvariant; infer_instance

/-- The coverage condition of claim C1: every name in the aggregate demand has
a pantry entry with the same unit and at least the demanded quantity, within
`eps`. -/
def Covered (pantryIdx : List (String × Pslot)) (required : List (String × ReqSlot)) : Prop :=
  ∀ kv ∈ required, ∃ p, mapLookup pantryIdx kv.1 = some p ∧ p.unit = kv.2.unit ∧
    kv.2.qty ≤ p.qty + eps

/-- Is a problem the unit-conflict problem for the given (lower-cased)
ingredient name? -/
def isConflictFor (nm : String) : Problem → Bool
  | .unitConflict n _ _ => n == nm
  | _ => false

/-- Number of unit-conflict problems recorded for a name. -/
def conflictCount (nm : String) (probs : List Problem) : Nat :=
  probs.countP (isConflictFor nm)

/-- The one-conflict bookkeeping invariant of the aggregation state. -/
def ConflictInv (nm : String) (st : WalkSt) : Prop :=
  conflictCount nm st.problems = (if st.conflicted.contains nm then 1 else 0)

/-- C7: a plan with empty `days_planned` is reported infeasible with exactly
the single problem "days_planned must be non-empty", for every ledger and
catalog. -/
theorem checkFeasible_empty_days (plan : MealPlan) (pantry : List PantryIng)
    (recipes : List RecipeSrc) (h : plan.daysPlanned = []) :
    checkFeasiblePlan plan pantry recipes = (false, ["days_planned must be non-empty"]) := by
  simp [checkFeasiblePlan, h]

/-- Witness for C7 at a concrete empty plan. -/
theorem checkFeasible_empty_days_witness :
    (MealPlan.mk "s" []).daysPlanned = [] ∧
      checkFeasiblePlan (MealPlan.mk "s" []) [] [] =
        (false, ["days_planned must be non-empty"]) :=
  ⟨rfl, checkFeasible_empty_days (MealPlan.mk "s" []) [] [] rfl⟩

/-- C5 (counterexample): a plan satisfying every condition the claim lists —
non-empty days, non-empty meals, non-empty id and name, positive servings —
is nevertheless rejected by the code's structural gate, because its summary
is empty. -/
theorem structural_gate_summary_cex :
    specStructuralInvariant (MealPlan.mk "" [DayPlan.mk 1 [Meal.mk "a" "b" 1]]) ∧
      (MealPlan.mk "" [DayPlan.mk 1 [Meal.mk "a" "b" 1]]).IsValid = false := by
  constructor
  · refine ⟨by decide, ?_⟩
    intro d hd
    simp only [List.mem_singleton] at hd
    subst hd
    exact ⟨by decide, by intro m hm; simp only [List.mem_singleton] at hm; subst hm; decide⟩
  · decide

theorem isValid_iff (mp : MealPlan) :
    mp.IsValid = true ↔ specStructuralInvariant mp ∧ mp.summary ≠ "" := by
  unfold MealPlan.IsValid specStructuralInvariant
  simp [List.all_eq_true, List.isEmpty_iff, and_assoc]

section InstrumentedEquivalence

theorem instr_ltrim_eq : Instrumented.ltrim = ltrim := rfl

theorem instr_eps_eq : Instrumented.eps = eps := rfl

theorem instr_buildPantryIdxAux_eq (l : List PantryIng) :
    ∀ idx, Instrumented.buildPantryIdxAux idx l = buildPantryIdxAux idx l := by
  induction l with
  | nil => intro idx; rfl
  | cons it rest ih =>
      intro idx
      simp only [Instrumented.buildPantryIdxAux, buildPantryIdxAux, instr_ltrim_eq, ih]

theorem instr_flagNeedsAux_eq (id : String) (l : List NeedIng) :
    ∀ acc, Instrumented.flagNeedsAux id acc l = flagNeedsAux id acc l := by
  induction l with
  | nil => intro acc; rfl
  | cons x rest ih =>
      intro acc
      simp only [Instrumented.flagNeedsAux, flagNeedsAux, instr_ltrim_eq, ih]

theorem instr_buildRecipeIdxAux_eq (l : List RecipeSrc) :
    ∀ acc, Instrumented.buildRecipeIdxAux acc l = buildRecipeIdxAux acc l := by
  induction l with
  | nil => intro acc; rfl
  | cons r rest ih =>
      intro acc
      simp only [Instrumented.buildRecipeIdxAux, buildRecipeIdxAux, instr_flagNeedsAux_eq, ih]

theorem instr_accumNeed_eq : Instrumented.accumNeed = accumNeed := rfl

theorem instr_walkNeeds_eq (scale : Rat) (l : List NeedIng) :
    ∀ st, Instrumented.walkNeeds scale st l = walkNeeds scale st l := by
  induction l with
  | nil => intro st; rfl
  | cons n rest ih =>
      intro st
      simp only [Instrumented.walkNeeds, walkNeeds, instr_accumNeed_eq, ih]

theorem instr_walkMeal_eq (recIdx : List (String × RecEntry)) (st : WalkSt) (m : Meal) :
    Instrumented.walkMeal recIdx st m = walkMeal recIdx st m := by
  unfold Instrumented.walkMeal walkMeal
  cases mapLookup recIdx m.id with
  | none => rfl
  | some r => simp only [instr_walkNeeds_eq]

theorem instr_walkMeals_eq (recIdx : List (String × RecEntry)) (l : List Meal) :
    ∀ st, Instrumented.walkMeals recIdx st l = walkMeals recIdx st l := by
  induction l with
  | nil => intro st; rfl
  | cons m rest ih =>
      intro st
      simp only [Instrumented.walkMeals, walkMeals, instr_walkMeal_eq, ih]

theorem instr_walkDays_eq (recIdx : List (String × RecEntry)) (l : List DayPlan) :
    ∀ st, Instrumented.walkDays recIdx st l = walkDays recIdx st l := by
  induction l with
  | nil => intro st; rfl
  | cons d rest ih =>
      intro st
      simp only [Instrumented.walkDays, walkDays, instr_walkMeals_eq, ih]

theorem instr_comparePhaseAux_eq (pidx : List (String × Pslot)) (l : List (String × ReqSlot)) :
    ∀ acc, Instrumented.comparePhaseAux pidx acc l = comparePhaseAux pidx acc l := by
  induction l with
  | nil => intro acc; rfl
  | cons kv rest ih =>
      intro acc
      simp only [Instrumented.comparePhaseAux, comparePhaseAux, instr_eps_eq, ih]

theorem instr_checkFeasiblePlan_eq (plan : MealPlan) (pantry : List PantryIng)
    (recipes : List RecipeSrc) :
    Instrumented.checkFeasiblePlan plan pantry recipes = checkFeasiblePlan plan pantry recipes := by
  unfold Instrumented.checkFeasiblePlan checkFeasiblePlan
  unfold Instrumented.fullProblems fullProblems
  unfold Instrumented.aggState aggState
  unfold Instrumented.buildRecipeIdx buildRecipeIdx
  unfold Instrumented.buildPantryIdx buildPantryIdx
  unfold Instrumented.comparePhase comparePhase
  simp only [instr_buildRecipeIdxAux_eq, instr_walkDays_eq, instr_comparePhaseAux_eq,
    instr_buildPantryIdxAux_eq]

/-- C10: the plain and the instrumented feasibility checkers are
extensionally equal — for every final JSON text (through the same
`json.Unmarshal` oracle) and identical pantry and recipe snapshots they
return the same result, error case included. -/
theorem instrumented_checkFeasible_eq (parse : String → Except String MealPlan)
    (pantry : List PantryIng) (recipes : List RecipeSrc) (finalJSON : String) :
    Instrumented.checkFeasible parse pantry recipes finalJSON =
      checkFeasible parse pantry recipes finalJSON := by
  unfold Instrumented.checkFeasible checkFeasible
  cases parse finalJSON with
  | error e => rfl
  | ok plan => simp only [instr_checkFeasiblePlan_eq]

end InstrumentedEquivalence

theorem checkFeasiblePlan_eq (plan : MealPlan) (pantry : List PantryIng)
    (recipes : List RecipeSrc) :
    checkFeasiblePlan plan pantry recipes =
      if plan.daysPlanned.isEmpty then (false, ["days_planned must be non-empty"])
      else if (fullProblems plan pantry recipes).isEmpty then (true, [])
      else (false, sortStrings ((fullProblems plan pantry recipes).map Problem.render)) := rfl

theorem sortStrings_sorted (l : List String) : (sortStrings l).Sorted (· ≤ ·) :=
  List.sorted_mergeSort' l

theorem sortStrings_ne_nil (l : List String) (h : l ≠ []) : sortStrings l ≠ [] := by
  intro hs
  apply h
  have hlen := (List.mergeSort_perm l (fun a b => decide (a ≤ b))).length_eq
  rw [show l.mergeSort (fun a b => decide (a ≤ b)) = sortStrings l from rfl, hs] at hlen
  exact List.length_eq_zero.mp hlen.symm

/-- C8: the feasibility check is a pure function — identical plan, ledger and
catalog inputs give the identical verdict and the identical problems
sequence — and the returned problems sequence is lexicographically sorted
in every case. -/
theorem checkFeasible_deterministic (plan₁ plan₂ : MealPlan) (pantry₁ pantry₂ : List PantryIng)
    (recipes₁ recipes₂ : List RecipeSrc) (h₁ : plan₁ = plan₂) (h₂ : pantry₁ = pantry₂)
    (h₃ : recipes₁ = recipes₂) :
    checkFeasiblePlan plan₁ pantry₁ recipes₁ = checkFeasiblePlan plan₂ pantry₂ recipes₂ ∧
      ((checkFeasiblePlan plan₁ pantry₁ recipes₁).2).Sorted (· ≤ ·) := by
  subst h₁ h₂ h₃
  refine ⟨rfl, ?_⟩
  rw [checkFeasiblePlan_eq]
  by_cases hd : plan₁.daysPlanned.isEmpty = true
  · rw [if_pos hd]; simp
  · rw [if_neg hd]
    by_cases hp : (fullProblems plan₁ pantry₁ recipes₁).isEmpty = true
    · rw [if_pos hp]; simp
    · rw [if_neg hp]; exact sortStrings_sorted _

/-- Witness for C8 at concrete identical inputs. -/
theorem checkFeasible_deterministic_witness :
    checkFeasiblePlan (MealPlan.mk "s" []) [] [] = checkFeasiblePlan (MealPlan.mk "s" []) [] [] ∧
      ((checkFeasiblePlan (MealPlan.mk "s" []) [] []).2).Sorted (· ≤ ·) :=
  checkFeasible_deterministic (MealPlan.mk "s" []) (MealPlan.mk "s" []) [] [] [] []
    rfl rfl rfl

theorem comparePhaseAux_eq_nil (pidx : List (String × Pslot)) (l : List (String × ReqSlot)) :
    ∀ acc, comparePhaseAux pidx acc l = [] → acc = [] ∧ Covered pidx l := by
  induction l with
  | nil =>
      intro acc h
      exact ⟨h, by intro kv hkv; simp at hkv⟩
  | cons kv rest ih =>
      intro acc h
      rw [comparePhaseAux] at h
      obtain ⟨hacc2, hrest⟩ := ih _ h
      cases hm : mapLookup pidx kv.1 with
      | none => simp [hm] at hacc2
      | some p =>
          rw [hm] at hacc2
          by_cases hu : p.unit = kv.2.unit
          · simp only [hu, bne_self_eq_false, Bool.false_eq_true, if_false] at hacc2
            by_cases hq : p.qty + eps < kv.2.qty
            · simp [hq] at hacc2
            · simp only [hq, if_false] at hacc2
              refine ⟨hacc2, ?_⟩
              intro kv2 hkv2
              rcases List.mem_cons.mp hkv2 with h1 | h2
              · subst h1; exact ⟨p, hm, hu, le_of_not_lt hq⟩
              · exact hrest kv2 h2
          · simp [bne_iff_ne, hu] at hacc2

/-- C1 (counterexample to the claim as stated): for the plan with one meal
referencing an unknown recipe id, an empty ledger and an empty catalog, the
aggregate demand is empty — so the claim's coverage condition holds
vacuously — yet `checkFeasible` reports infeasible (the problems list
carries the unknown-recipe problem). Coverage of the aggregate demand is
therefore not equivalent to `feasible = true`. -/
theorem feasibility_coverage_cex :
    Covered (buildPantryIdx [])
        ((aggState (MealPlan.mk "s" [DayPlan.mk 1 [Meal.mk "x" "x" 1]]) []).required) ∧
      (checkFeasiblePlan (MealPlan.mk "s" [DayPlan.mk 1 [Meal.mk "x" "x" 1]]) [] []).1 = false := by
  constructor
  · have hreq :
        (aggState (MealPlan.mk "s" [DayPlan.mk 1 [Meal.mk "x" "x" 1]]) []).required = [] := rfl
    intro kv hkv
    rw [hreq] at hkv
    simp at hkv
  · rfl

/-- C1 (amended): `feasible` is `true` exactly when the problems list is
empty, and `feasible = true` implies the coverage condition (every
aggregate-demand name has a matching-unit pantry entry with enough
quantity, within `eps`); the converse implication fails in general because
problems can also arise from unknown recipe ids, non-positive servings,
invalid base servings, malformed ingredients, or unit conflicts. -/
theorem checkFeasible_sound (plan : MealPlan) (pantry : List PantryIng)
    (recipes : List RecipeSrc) :
    ((checkFeasiblePlan plan pantry recipes).1 = true ↔
      (checkFeasiblePlan plan pantry recipes).2 = []) ∧
    ((checkFeasiblePlan plan pantry recipes).1 = true →
      Covered (buildPantryIdx pantry) ((aggState plan recipes).required)) := by
  rw [checkFeasiblePlan_eq]
  by_cases hd : plan.daysPlanned.isEmpty = true
  · rw [if_pos hd]
    simp
  · rw [if_neg hd]
    by_cases hp : (fullProblems plan pantry recipes).isEmpty = true
    · rw [if_pos hp]
      refine ⟨by simp, ?_⟩
      intro _
      have hnil : fullProblems plan pantry recipes = [] := List.isEmpty_iff.mp hp
      unfold fullProblems at hnil
      have hcmp : comparePhase (buildPantryIdx pantry) ((aggState plan recipes).required) = [] :=
        (List.append_eq_nil.mp hnil).2
      exact (comparePhaseAux_eq_nil (buildPantryIdx pantry) _ [] hcmp).2
    · rw [if_neg hp]
      constructor
      · simp only [Bool.false_eq_true, false_iff]
        apply sortStrings_ne_nil
        intro hmap
        rw [List.map_eq_nil_iff] at hmap
        rw [hmap] at hp
        simp at hp
      · intro hfalse
        simp at hfalse

theorem conflictCount_append (nm : String) (a b : List Problem) :
    conflictCount nm (a ++ b) = conflictCount nm a + conflictCount nm b :=
  List.countP_append _ _ _

theorem contains_append_eq (l1 l2 : List String) (a : String) :
    (l1 ++ l2).contains a = (l1.contains a || l2.contains a) := by
  simp [List.contains_eq_any_beq]

theorem contains_singleton_eq (a b : String) : [a].contains b = (a == b) := by
  simp only [List.contains_eq_any_beq, List.any_cons, List.any_nil, Bool.or_false]
  rw [Bool.eq_iff_iff]
  simp only [decide_eq_true_eq, beq_iff_eq]
  exact eq_comm

theorem accumNeed_conflictInv (nm : String) (scale : Rat) (st : WalkSt) (n : NeedIng)
    (h : ConflictInv nm st) : ConflictInv nm (accumNeed scale st n) := by
  unfold accumNeed
  by_cases h1 : (n.name == "" || n.unit == "" || !(decide (0 < n.qty))) = true
  · rw [if_pos h1]; exact h
  · rw [if_neg h1]
    by_cases h2 : n.optional = true
    · rw [if_pos h2]; exact h
    · rw [if_neg h2]
      by_cases h3 : (((mapLookup st.required n.name).getD ⟨0, ""⟩).unit != "" &&
          ((mapLookup st.required n.name).getD ⟨0, ""⟩).unit != n.unit) = true
      · rw [if_pos h3]
        by_cases h4 : st.conflicted.contains n.name = true
        · rw [if_pos h4]; exact h
        · rw [if_neg h4]
          have h4f : st.conflicted.contains n.name = false := by simpa using h4
          unfold ConflictInv at h ⊢
          rw [conflictCount_append]
          simp only [contains_append_eq, contains_singleton_eq]
          by_cases he : n.name = nm
          · subst he
            rw [h4f] at h ⊢
            simp only [Bool.false_eq_true, if_false] at h
            rw [h]
            simp [conflictCount, isConflictFor, List.countP_cons]
          · have hone : conflictCount nm [Problem.unitConflict n.name
                ((mapLookup st.required n.name).getD ⟨0, ""⟩).unit n.unit] = 0 := by
              simp [conflictCount, isConflictFor, List.countP_cons, he]
            have htwo : (n.name == nm) = false := by
              simpa using he
            rw [hone, htwo, Nat.add_zero, Bool.or_false]
            exact h
      · rw [if_neg h3]; exact h

theorem walkNeeds_conflictInv (nm : String) (scale : Rat) (l : List NeedIng) :
    ∀ st, ConflictInv nm st → ConflictInv nm (walkNeeds scale st l) := by
  induction l with
  | nil => intro st h; exact h
  | cons n rest ih =>
      intro st h
      exact ih _ (accumNeed_conflictInv nm scale st n h)

theorem walkMeal_conflictInv (nm : String) (recIdx : List (String × RecEntry)) (st : WalkSt)
    (m : Meal) (h : ConflictInv nm st) : ConflictInv nm (walkMeal recIdx st m) := by
  unfold walkMeal
  split
  · by_cases hc : st.unknownRec.contains m.id = true
    · rw [if_pos hc]; exact h
    · rw [if_neg hc]
      unfold ConflictInv at h ⊢
      simp only [conflictCount_append]
      have h0 : conflictCount nm [Problem.unknownRecipe m.id] = 0 := by
        simp [conflictCount, isConflictFor]
      simp only [h0, Nat.add_zero]
      exact h
  · by_cases hs : m.servings ≤ 0
    · rw [if_pos hs]
      by_cases hc : st.nonPosServ.contains m.id = true
      · rw [if_pos hc]; exact h
      · rw [if_neg hc]
        unfold ConflictInv at h ⊢
        simp only [conflictCount_append]
        have h0 : conflictCount nm [Problem.nonPositiveServings m.id] = 0 := by
          simp [conflictCount, isConflictFor]
        simp only [h0, Nat.add_zero]
        exact h
    · rw [if_neg hs]
      exact walkNeeds_conflictInv nm _ _ st h

theorem walkMeals_conflictInv (nm : String) (recIdx : List (String × RecEntry)) (l : List Meal) :
    ∀ st, ConflictInv nm st → ConflictInv nm (walkMeals recIdx st l) := by
  induction l with
  | nil => intro st h; exact h
  | cons m rest ih =>
      intro st h
      exact ih _ (walkMeal_conflictInv nm recIdx st m h)

theorem walkDays_conflictInv (nm : String) (recIdx : List (String × RecEntry))
    (l : List DayPlan) : ∀ st, ConflictInv nm st → ConflictInv nm (walkDays recIdx st l) := by
  induction l with
  | nil => intro st h; exact h
  | cons d rest ih =>
      intro st h
      exact ih _ (walkMeals_conflictInv nm recIdx d.meals st h)

theorem flagNeedsAux_no_conflict (nm id : String) (l : List NeedIng) :
    ∀ acc, conflictCount nm (flagNeedsAux id acc l).2 = conflictCount nm acc.2 := by
  induction l with
  | nil => intro acc; rfl
  | cons x rest ih =>
      intro acc
      rw [flagNeedsAux, ih]
      split
      · split
        · split
          · simp [conflictCount_append, conflictCount, isConflictFor]
          · simp [conflictCount_append, conflictCount, isConflictFor]
        · split
          · simp [conflictCount_append, conflictCount, isConflictFor]
          · rfl
      · rfl

theorem buildRecipeIdxAux_no_conflict (nm : String) (l : List RecipeSrc) :
    ∀ acc, conflictCount nm (buildRecipeIdxAux acc l).2 = conflictCount nm acc.2 := by
  induction l with
  | nil => intro acc; rfl
  | cons r rest ih =>
      intro acc
      rw [buildRecipeIdxAux]
      split
      · exact ih acc
      · rw [ih, flagNeedsAux_no_conflict]
        split
        · simp [conflictCount_append, conflictCount, isConflictFor]
        · rfl

theorem comparePhaseAux_no_conflict (nm : String) (pidx : List (String × Pslot))
    (l : List (String × ReqSlot)) :
    ∀ acc, conflictCount nm (comparePhaseAux pidx acc l) = conflictCount nm acc := by
  induction l with
  | nil => intro acc; rfl
  | cons kv rest ih =>
      intro acc
      rw [comparePhaseAux, ih]
      cases hm : mapLookup pidx kv.1 with
      | none => simp [conflictCount_append, conflictCount, isConflictFor]
      | some p =>
          simp only
          by_cases hu : (p.unit != kv.2.unit) = true
          · rw [if_pos hu]
            simp [conflictCount_append, conflictCount, isConflictFor]
          · rw [if_neg hu]
            by_cases hq : p.qty + eps < kv.2.qty
            · rw [if_pos hq]
              simp [conflictCount_append, conflictCount, isConflictFor]
            · rw [if_neg hq]

theorem comparePhase_no_conflict (nm : String) (pidx : List (String × Pslot))
    (l : List (String × ReqSlot)) : conflictCount nm (comparePhase pidx l) = 0 := by
  unfold comparePhase
  rw [comparePhaseAux_no_conflict]
  rfl

theorem fullProblems_eq (plan : MealPlan) (pantry : List PantryIng) (recipes : List RecipeSrc) :
    fullProblems plan pantry recipes =
      (aggState plan recipes).problems ++
        comparePhase (buildPantryIdx pantry) ((aggState plan recipes).required) := rfl

theorem aggState_conflictInv (nm : String) (plan : MealPlan) (recipes : List RecipeSrc) :
    ConflictInv nm (aggState plan recipes) := by
  unfold aggState
  apply walkDays_conflictInv
  unfold ConflictInv
  simp only [List.contains, List.elem_nil, if_false]
  have h0 : conflictCount nm (buildRecipeIdx recipes).2 = 0 := by
    unfold buildRecipeIdx
    rw [buildRecipeIdxAux_no_conflict]
    rfl
  exact h0

/-- C6: (i) whenever a unit conflict was detected for a (lower-cased)
ingredient name during aggregation, exactly one unit-conflict problem for
that name is recorded across the whole check; (ii) a well-formed
non-optional contribution whose unit differs from the unit already
accumulated under its name leaves the aggregate demand unchanged
(dropped); (iii) when units agree, the accumulated slot becomes exactly
`cur.qty + qty·scale` in the contribution's own unit — no conversion is
ever applied. -/
theorem unit_conflict_once (plan : MealPlan) (pantry : List PantryIng)
    (recipes : List RecipeSrc) (nm : String)
    (h : ((aggState plan recipes).conflicted).contains nm = true) :
    conflictCount nm (fullProblems plan pantry recipes) = 1 ∧
    (∀ (scale : Rat) (st : WalkSt) (n : NeedIng), n.name ≠ "" → n.unit ≠ "" → 0 < n.qty →
      n.optional = false → ∀ cur, mapLookup st.required n.name = some cur → cur.unit ≠ "" →
        cur.unit ≠ n.unit → (accumNeed scale st n).required = st.required) ∧
    (∀ (scale : Rat) (st : WalkSt) (n : NeedIng), n.name ≠ "" → n.unit ≠ "" → 0 < n.qty →
      n.optional = false → ∀ cur, mapLookup st.required n.name = some cur → cur.unit = n.unit →
        (accumNeed scale st n).required =
          mapInsert st.required n.name ⟨cur.qty + n.qty * scale, n.unit⟩) := by
  refine ⟨?_, ?_, ?_⟩
  · rw [fullProblems_eq, conflictCount_append, comparePhase_no_conflict, Nat.add_zero]
    have hinv := aggState_conflictInv nm plan recipes
    unfold ConflictInv at hinv
    rw [hinv, if_pos h]
  · intro scale st n hn hu hq hop cur hcur hcu hne
    unfold accumNeed
    rw [if_neg, if_neg]
    · simp only [hcur, Option.getD_some]
      rw [if_pos]
      · split <;> rfl
      · simp [hcu, hne]
    · simp [hop]
    · simp [hn, hu, hq]
  · intro scale st n hn hu hq hop cur hcur hcu
    unfold accumNeed
    rw [if_neg, if_neg]
    · simp only [hcur, Option.getD_some]
      rw [if_neg]
      rw [hcu]
      simp
    · simp [hop]
    · simp [hn, hu, hq]

/-- C4: a response with no tool calls whose trimmed text is empty, does not
begin with a brace, or does not end with one, is treated as not-yet-final:
the loop appends the fixed tool-suggestion message (naming `pantry_get` and
`recipe_get`) and re-invokes the model — no error, and the structural
parser and feasibility checker play no part in the transition (the
right-hand side does not depend on them). -/
theorem syntactic_gate (env : Env) (fuel : Nat) (prompt : Prompt) (counts : String → Nat)
    (res : Response) (hllm : env.llm prompt = .ok res) (hnc : res.toolCalls = [])
    (hbad : (goTrimSpace res.content == "" || !goHasPrefix (goTrimSpace res.content) "\x7b" ||
      !goHasSuffix (goTrimSpace res.content) "\x7d") = true) :
    runLoop env (fuel + 1) prompt counts =
      runLoop env fuel (appendMsg prompt (userTextMessage toolSuggestionText)) counts := by
  simp only [runLoop, hllm, hnc, List.isEmpty_nil, if_true, hbad]

/-- Witness for C4: a plain-text response at a concrete environment. -/
theorem syntactic_gate_witness :
    (Env.mk (fun _ => .ok ⟨"hello", []⟩) (fun _ => .error "none") (fun _ => .error "no") []
        []).llm ⟨[]⟩ = .ok ⟨"hello", []⟩ ∧
    runLoop (Env.mk (fun _ => .ok ⟨"hello", []⟩) (fun _ => .error "none") (fun _ => .error "no")
        [] []) 1 ⟨[]⟩ (fun _ => 0) =
      runLoop (Env.mk (fun _ => .ok ⟨"hello", []⟩) (fun _ => .error "none")
        (fun _ => .error "no") [] []) 0
        (appendMsg ⟨[]⟩ (userTextMessage toolSuggestionText)) (fun _ => 0) :=
  ⟨rfl, syntactic_gate _ 0 ⟨[]⟩ (fun _ => 0) ⟨"hello", []⟩ rfl rfl (by decide)⟩

/-- C3: with a model that always requests tools, every iteration budget is
consumed without acceptance and `Run` returns the empty string with no
error — exhaustion is never reported as an error. -/
theorem exhaustion_not_error (env : Env)
    (hmodel : ∀ p, ∃ r, env.llm p = .ok r ∧ r.toolCalls ≠ []) :
    ∀ (fuel : Nat) (prompt : Prompt) (counts : String → Nat),
      (runLoop env fuel prompt counts).1 = .ok "" := by
  intro fuel
  induction fuel with
  | zero => intro prompt counts; rfl
  | succ n ih =>
      intro prompt counts
      obtain ⟨r, hllm, hne⟩ := hmodel prompt
      have hie : r.toolCalls.isEmpty = false := by
        cases hc : r.toolCalls with
        | nil => exact absurd hc hne
        | cons a l => rfl
      simp only [runLoop, hllm, hie, Bool.false_eq_true, if_false]
      cases hb : bumpCalls r.toolCalls counts with
      | mk counts2 flag =>
          cases flag
          · simp only
            cases hdisp : dispatchCalls env r.toolCalls with
            | mk results disp =>
                cases hrl : runLoop env n
                    (if results.isEmpty then appendMsg prompt (assistantMessage r)
                     else appendMsg (appendMsg prompt (assistantMessage r))
                       (NewToolResultMessage results)) counts2 with
                | mk out tr =>
                    have hout := ih (if results.isEmpty then
                        appendMsg prompt (assistantMessage r)
                      else appendMsg (appendMsg prompt (assistantMessage r))
                        (NewToolResultMessage results)) counts2
                    rw [hrl] at hout
                    simp only [hdisp, hrl]
                    exact hout
          · simp only
            exact ih _ counts2

/-- Witness for C3: budget 1 with a model that always requests `pantry_get`. -/
theorem exhaustion_not_error_witness :
    (∀ p, ∃ r, (Env.mk (fun _ => .ok ⟨"", [⟨"pantry_get", "\x7b\x7d", "t1"⟩]⟩)
        (fun _ => .error "nope") (fun _ => .error "no") [] []).llm p = .ok r ∧
        r.toolCalls ≠ []) ∧
    (runLoop (Env.mk (fun _ => .ok ⟨"", [⟨"pantry_get", "\x7b\x7d", "t1"⟩]⟩)
        (fun _ => .error "nope") (fun _ => .error "no") [] []) 1 ⟨[]⟩ (fun _ => 0)).1 =
      .ok "" :=
  ⟨fun _ => ⟨⟨"", [⟨"pantry_get", "\x7b\x7d", "t1"⟩]⟩, rfl, by decide⟩,
   exhaustion_not_error _
     (fun _ => ⟨⟨"", [⟨"pantry_get", "\x7b\x7d", "t1"⟩]⟩, rfl, by decide⟩) 1 ⟨[]⟩ (fun _ => 0)⟩

theorem bumpCalls_mono (l : List ToolCall) :
    ∀ counts counts2 flag, bumpCalls l counts = (counts2, flag) → ∀ t, counts t ≤ counts2 t := by
  induction l with
  | nil =>
      intro counts counts2 flag h t
      cases h
      exact le_refl _
  | cons c rest ih =>
      intro counts counts2 flag h t
      rw [bumpCalls] at h
      have hstep : counts t ≤ bump counts c.name t := by
        unfold bump
        by_cases ht : t = c.name
        · subst ht; simp
        · simp [ht]
      by_cases hc : (isDataTool c.name && decide (2 < bump counts c.name c.name)) = true
      · rw [if_pos hc] at h
        cases h
        exact hstep
      · rw [if_neg hc] at h
        exact le_trans hstep (ih _ _ _ h t)

theorem bumpCalls_false_count (l : List ToolCall) :
    ∀ counts counts2, bumpCalls l counts = (counts2, false) →
      ∀ t, counts2 t = counts t + (l.map ToolCall.name).count t := by
  induction l with
  | nil =>
      intro counts counts2 h t
      cases h
      simp
  | cons c rest ih =>
      intro counts counts2 h t
      rw [bumpCalls] at h
      by_cases hc : (isDataTool c.name && decide (2 < bump counts c.name c.name)) = true
      · rw [if_pos hc] at h
        exact absurd (congrArg Prod.snd h) (by simp)
      · rw [if_neg hc] at h
        rw [ih _ _ h t]
        simp only [List.map_cons, List.count_cons]
        unfold bump
        by_cases ht : t = c.name
        · subst ht
          simp
          omega
        · have : (c.name == t) = false := by
            simpa using fun hh => ht hh.symm
          simp [ht, this]

theorem bumpCalls_false_data_le (l : List ToolCall) :
    ∀ counts counts2, bumpCalls l counts = (counts2, false) → ∀ t, isDataTool t = true →
      (l.map ToolCall.name).count t ≠ 0 → counts2 t ≤ 2 := by
  induction l with
  | nil =>
      intro counts counts2 h t _ hocc
      simp at hocc
  | cons c rest ih =>
      intro counts counts2 h t hdt hocc
      rw [bumpCalls] at h
      by_cases hc : (isDataTool c.name && decide (2 < bump counts c.name c.name)) = true
      · rw [if_pos hc] at h
        exact absurd (congrArg Prod.snd h) (by simp)
      · rw [if_neg hc] at h
        by_cases hrest : (rest.map ToolCall.name).count t = 0
        · have hct : c.name = t := by
            simp only [List.map_cons, List.count_cons, hrest, Nat.zero_add] at hocc
            by_cases hh : c.name = t
            · exact hh
            · exfalso
              apply hocc
              simp [hh]
          have hcount := bumpCalls_false_count rest _ _ h t
          rw [hrest, Nat.add_zero] at hcount
          subst hct
          rw [hcount]
          unfold bump
          simp only [if_pos rfl]
          rw [hdt] at hc
          simp only [Bool.true_and, decide_eq_true_eq, Bool.not_eq_true] at hc
          unfold bump at hc
          simp only [if_pos rfl] at hc
          omega
        · exact ih _ _ h t hdt hrest

theorem dispatchCalls_count_le (env : Env) (l : List ToolCall) (t : String) :
    (dispatchCalls env l).2.count t ≤ (l.map ToolCall.name).count t := by
  induction l with
  | nil => simp [dispatchCalls]
  | cons c rest ih =>
      rw [dispatchCalls]
      cases hd : dispatchCalls env rest with
      | mk rs tr =>
          have ih2 : tr.count t ≤ (rest.map ToolCall.name).count t := by
            rw [hd] at ih
            exact ih
          cases hg : env.getTool c.name with
          | error e =>
              simp only [hg, List.map_cons, List.count_cons]
              omega
          | ok tool =>
              cases hrun : tool.run c.input with
              | error e2 =>
                  simp only [hg, hrun, List.map_cons, List.count_cons]
                  omega
              | ok out =>
                  simp only [hg, hrun, List.map_cons, List.count_cons]
                  omega

theorem runLoop_dispatch_bound (env : Env) (nm : String) (hdt : isDataTool nm = true) :
    ∀ (fuel : Nat) (prompt : Prompt) (counts : String → Nat),
      (runLoop env fuel prompt counts).2.count nm + min (counts nm) 2 ≤ 2 := by
  intro fuel
  induction fuel with
  | zero =>
      intro prompt counts
      simp only [runLoop, List.count_nil]
      omega
  | succ n ih =>
      intro prompt counts
      rw [runLoop]
      cases hllm : env.llm prompt with
      | error e =>
          simp only [List.count_nil]
          omega
      | ok res =>
          by_cases hie : res.toolCalls.isEmpty = true
          · simp only [hie, if_true]
            split
            · exact ih _ _
            · split
              · exact ih _ _
              · split
                · exact ih _ _
                · split
                  · exact ih _ _
                  · split
                    · simp only [List.count_nil]
                      omega
                    · exact ih _ _
          · have hie2 : res.toolCalls.isEmpty = false := by simpa using hie
            simp only [hie2, Bool.false_eq_true, if_false]
            cases hb : bumpCalls res.toolCalls counts with
            | mk counts2 flag =>
                cases flag
                · simp only [hb]
                  cases hdc : dispatchCalls env res.toolCalls with
                  | mk results disp =>
                      have hIH := ih (if results.isEmpty then
                          appendMsg prompt (assistantMessage res)
                        else appendMsg (appendMsg prompt (assistantMessage res))
                          (NewToolResultMessage results)) counts2
                      have hBle : disp.count nm ≤ (res.toolCalls.map ToolCall.name).count nm := by
                        have hBle0 := dispatchCalls_count_le env res.toolCalls nm
                        rw [hdc] at hBle0
                        exact hBle0
                      have hCnt := bumpCalls_false_count res.toolCalls counts counts2 hb nm
                      have hfin : (disp ++ (runLoop env n (if results.isEmpty then
                            appendMsg prompt (assistantMessage res)
                          else appendMsg (appendMsg prompt (assistantMessage res))
                            (NewToolResultMessage results)) counts2).2).count nm +
                          min (counts nm) 2 ≤ 2 := by
                        rw [List.count_append]
                        by_cases hocc : (res.toolCalls.map ToolCall.name).count nm = 0
                        · rw [hocc] at hCnt hBle
                          omega
                        · have hle2 :=
                            bumpCalls_false_data_le res.toolCalls counts counts2 hb nm hdt hocc
                          omega
                      exact hfin
                · have hIH := ih (appendMsg prompt (userTextMessage excessiveRepetitionText))
                    counts2
                  have hmono := bumpCalls_mono res.toolCalls counts counts2 true hb nm
                  have hfin : (runLoop env n
                      (appendMsg prompt (userTextMessage excessiveRepetitionText))
                      counts2).2.count nm + min (counts nm) 2 ≤ 2 := by omega
                  simp only [hb]
                  exact hfin

/-- C2: when the repetition-guard pass over a batch flags excessive use of a
data-gathering tool (its per-run count pushed past 2), the iteration
dispatches nothing — the entire run transition equals continuing with
exactly one corrective message appended (result and dispatch trace alike) —
and, over any full run starting from zero counters, `pantry_get` and
`recipe_get` are each dispatched at most 2 times, so a 3rd dispatch never
happens. -/
theorem repetition_guard (env : Env) (fuel : Nat) (prompt : Prompt)
    (counts counts2 : String → Nat) (res : Response) (hllm : env.llm prompt = .ok res)
    (hne : res.toolCalls ≠ []) (hbump : bumpCalls res.toolCalls counts = (counts2, true)) :
    runLoop env (fuel + 1) prompt counts =
      runLoop env fuel (appendMsg prompt (userTextMessage excessiveRepetitionText)) counts2 ∧
    (∀ (fuel2 : Nat) (prompt2 : Prompt),
      (runLoop env fuel2 prompt2 (fun _ => 0)).2.count "pantry_get" ≤ 2 ∧
      (runLoop env fuel2 prompt2 (fun _ => 0)).2.count "recipe_get" ≤ 2) := by
  constructor
  · have hie : res.toolCalls.isEmpty = false := by
      cases hc : res.toolCalls with
      | nil => exact absurd hc hne
      | cons a l => rfl
    rw [runLoop]
    simp only [hllm, hie, Bool.false_eq_true, if_false, hbump]
    exact if_pos trivial
  · intro fuel2 prompt2
    constructor
    · have hb := runLoop_dispatch_bound env "pantry_get" rfl fuel2 prompt2 (fun _ => 0)
      simpa using hb
    · have hb := runLoop_dispatch_bound env "recipe_get" rfl fuel2 prompt2 (fun _ => 0)
      simpa using hb

/-- Witness for C2: a model that always requests `pantry_get`, with the
counter already at 2. -/
theorem repetition_guard_witness :
    (Env.mk (fun _ => .ok ⟨"", [⟨"pantry_get", "\x7b\x7d", "t1"⟩]⟩) (fun _ => .error "nope")
        (fun _ => .error "no") [] []).llm ⟨[]⟩ = .ok ⟨"", [⟨"pantry_get", "\x7b\x7d", "t1"⟩]⟩ ∧
    bumpCalls [ToolCall.mk "pantry_get" "\x7b\x7d" "t1"]
        (fun t => if t = "pantry_get" then 2 else 0) =
      (bump (fun t => if t = "pantry_get" then 2 else 0) "pantry_get", true) ∧
    runLoop (Env.mk (fun _ => .ok ⟨"", [⟨"pantry_get", "\x7b\x7d", "t1"⟩]⟩)
        (fun _ => .error "nope") (fun _ => .error "no") [] []) 1 ⟨[]⟩
        (fun t => if t = "pantry_get" then 2 else 0) =
      runLoop (Env.mk (fun _ => .ok ⟨"", [⟨"pantry_get", "\x7b\x7d", "t1"⟩]⟩)
        (fun _ => .error "nope") (fun _ => .error "no") [] []) 0
        (appendMsg ⟨[]⟩ (userTextMessage excessiveRepetitionText))
        (bump (fun t => if t = "pantry_get" then 2 else 0) "pantry_get") :=
  ⟨rfl, rfl,
   (repetition_guard _ 0 ⟨[]⟩ (fun t => if t = "pantry_get" then 2 else 0)
      (bump (fun t => if t = "pantry_get" then 2 else 0) "pantry_get")
      ⟨"", [⟨"pantry_get", "\x7b\x7d", "t1"⟩]⟩ rfl (by decide) rfl).1⟩

theorem goHasPrefix_append (a b : String) : goHasPrefix (a ++ b) a = true := by
  simp only [goHasPrefix, String.data_append, List.isPrefixOf_iff_prefix]
  exact List.prefix_append _ _

theorem runLoop_error_only_invoke (env : Env) : ∀ (fuel : Nat) (prompt : Prompt)
    (counts : String → Nat) (e : String), (runLoop env fuel prompt counts).1 = .error e →
    goHasPrefix e "invoke failed: " = true := by
  intro fuel
  induction fuel with
  | zero =>
      intro prompt counts e h
      exact absurd h (by simp [runLoop])
  | succ n ih =>
      intro prompt counts e h
      rw [runLoop] at h
      cases hllm : env.llm prompt with
      | error e0 =>
          rw [hllm] at h
          have h2 : Except.error ("invoke failed: " ++ e0) = (Except.error e : Except String String) := h
          cases h2
          exact goHasPrefix_append "invoke failed: " e0
      | ok res =>
          rw [hllm] at h
          by_cases hie : res.toolCalls.isEmpty = true
          · simp only [hie, if_true] at h
            split at h
            · exact ih _ _ _ h
            · split at h
              · exact ih _ _ _ h
              · split at h
                · exact ih _ _ _ h
                · split at h
                  · exact ih _ _ _ h
                  · split at h
                    · simp at h
                    · exact ih _ _ _ h
          · have hie2 : res.toolCalls.isEmpty = false := by simpa using hie
            simp only [hie2, Bool.false_eq_true, if_false] at h
            cases hb : bumpCalls res.toolCalls counts with
            | mk counts2 flag =>
                simp only [hb] at h
                cases flag
                · cases hdc : dispatchCalls env res.toolCalls with
                  | mk results disp =>
                      simp only [hdc] at h
                      exact ih _ counts2 e h
                · exact ih _ counts2 e h

theorem ollama_lookup_failure_aborts (env : OEnv) (fuel : Nat) (prompt : OPrompt)
    (res : OResponse) (c : OToolCall) (rest : List OToolCall) (e : String)
    (hllm : env.llm prompt = .ok res) (hne : res.toolCalls ≠ [])
    (hdedupe : dedupeToolCalls res.toolCalls = c :: rest)
    (hget : env.getTool c.name = .error e) :
    ollamaRunLoop env (fuel + 1) prompt =
      .error ("failed to get tool " ++ goQuote c.name ++ ": " ++ e) := by
  have hie : res.toolCalls.isEmpty = false := by
    cases hc : res.toolCalls with
    | nil => exact absurd hc hne
    | cons a l => rfl
  rw [ollamaRunLoop]
  rw [hllm]
  simp only [hie, Bool.false_and, Bool.false_eq_true, if_false, hdedupe]
  rw [ollamaToolPhase, hget]

/-- C9 (counterexample to the claim as stated): in the bedrock coordinator,
a requested tool whose lookup fails does not abort the run — the failure is
embedded as an error payload in the tool-result message and the run keeps
iterating; with budget 2 and a model that keeps requesting the unregistered
tool "ghost", the run ends in exhaustion `("", nil)`, not in an error. -/
theorem tool_lookup_not_fatal_cex :
    (runLoop (Env.mk (fun _ => .ok ⟨"", [⟨"ghost", "\x7b\x7d", "t1"⟩]⟩)
        (fun _ => .error "not registered") (fun _ => .error "x") [] []) 2 ⟨[]⟩
        (fun _ => 0)).1 = .ok "" := by
  rfl

/-- C9 (amended): tool-lookup failure is fatal in the ollama coordinator —
`Run` immediately returns the propagated `failed to get tool` error — while
in the bedrock coordinator the only fatal error is a model-invocation
failure (every error `Run` can return carries the `invoke failed: ` prefix),
so a tool-lookup failure there never aborts the run; it is embedded as an
error tool-result payload and the loop continues. -/
theorem tool_lookup_failure_policy :
    (∀ (env : Env) (fuel : Nat) (prompt : Prompt) (counts : String → Nat) (e : String),
      (runLoop env fuel prompt counts).1 = .error e →
        goHasPrefix e "invoke failed: " = true) ∧
    (∀ (env : OEnv) (fuel : Nat) (prompt : OPrompt) (res : OResponse) (c : OToolCall)
      (rest : List OToolCall) (e : String), env.llm prompt = .ok res → res.toolCalls ≠ [] →
      dedupeToolCalls res.toolCalls = c :: rest → env.getTool c.name = .error e →
      ollamaRunLoop env (fuel + 1) prompt =
        .error ("failed to get tool " ++ goQuote c.name ++ ": " ++ e)) :=
  ⟨runLoop_error_only_invoke,
   fun env fuel prompt res c rest e hllm hne hdedupe hget =>
     ollama_lookup_failure_aborts env fuel prompt res c rest e hllm hne hdedupe hget⟩

/-- Witness for C9 (amended) at a concrete ollama environment with an
unregistered tool, and a concrete bedrock non-error run. -/
theorem tool_lookup_failure_policy_witness :
    (runLoop (Env.mk (fun _ => .error "down") (fun _ => .error "nope") (fun _ => .error "no")
        [] []) 1 ⟨[]⟩ (fun _ => 0)).1 = .error ("invoke failed: " ++ "down") ∧
    goHasPrefix ("invoke failed: " ++ "down") "invoke failed: " = true ∧
    ollamaRunLoop (OEnv.mk (fun _ => .ok ⟨"", [⟨"ghost", "\x7b\x7d"⟩]⟩)
        (fun _ => .error "not registered")) 1 ⟨[]⟩ =
      .error ("failed to get tool " ++ goQuote "ghost" ++ ": " ++ "not registered") :=
  ⟨rfl,
   tool_lookup_failure_policy.1
     (Env.mk (fun _ => .error "down") (fun _ => .error "nope") (fun _ => .error "no") [] [])
     1 ⟨[]⟩ (fun _ => 0) ("invoke failed: " ++ "down") rfl,
   tool_lookup_failure_policy.2
     (OEnv.mk (fun _ => .ok ⟨"", [⟨"ghost", "\x7b\x7d"⟩]⟩) (fun _ => .error "not registered"))
     0 ⟨[]⟩ ⟨"", [⟨"ghost", "\x7b\x7d"⟩]⟩ ⟨"ghost", "\x7b\x7d"⟩ [] "not registered"
     rfl (by decide) rfl rfl⟩

theorem runLoop_accept_sound (env : Env) : ∀ (fuel : Nat) (prompt : Prompt)
    (counts : String → Nat) (out : String), (runLoop env fuel prompt counts).1 = .ok out →
    out ≠ "" → ∃ mp, env.parse out = .ok mp ∧ mp.IsValid = true ∧
      (checkFeasiblePlan mp env.pantry env.recipes).1 = true := by
  intro fuel
  induction fuel with
  | zero =>
      intro prompt counts out h hne
      have hout : "" = out := by simpa [runLoop] using h
      exact absurd hout.symm hne
  | succ n ih =>
      intro prompt counts out h hne
      rw [runLoop] at h
      cases hllm : env.llm prompt with
      | error e0 =>
          rw [hllm] at h
          exact absurd h (by simp)
      | ok res =>
          rw [hllm] at h
          by_cases hie : res.toolCalls.isEmpty = true
          · simp only [hie, if_true] at h
            split at h
            · exact ih _ _ _ h hne
            · split at h
              · exact ih _ _ _ h hne
              · rename_i plan hparse
                split at h
                · exact ih _ _ _ h hne
                · rename_i hvalid
                  split at h
                  · exact ih _ _ _ h hne
                  · rename_i feasible probs hcf
                    split at h
                    · rename_i hfeas
                      have hout : goTrimSpace res.content = out := by
                        simpa using h
                      have hcfeq : checkFeasiblePlan plan env.pantry env.recipes =
                          (feasible, probs) := by
                        rw [checkFeasible, hparse] at hcf
                        simpa using hcf
                      refine ⟨plan, ?_, ?_, ?_⟩
                      · rw [← hout]
                        exact hparse
                      · simpa using hvalid
                      · rw [hcfeq]
                        exact hfeas
                    · exact ih _ _ _ h hne
          · have hie2 : res.toolCalls.isEmpty = false := by simpa using hie
            simp only [hie2, Bool.false_eq_true, if_false] at h
            cases hb : bumpCalls res.toolCalls counts with
            | mk counts2 flag =>
                simp only [hb] at h
                cases flag
                · cases hdc : dispatchCalls env res.toolCalls with
                  | mk results disp =>
                      simp only [hdc] at h
                      exact ih _ counts2 out h hne
                · exact ih _ counts2 out h hne

theorem structural_gate_parse_error (env : Env) (fuel : Nat) (prompt : Prompt)
    (counts : String → Nat) (res : Response) (e : String) (hllm : env.llm prompt = .ok res)
    (hnc : res.toolCalls = [])
    (hgood : (goTrimSpace res.content == "" ||
      !goHasPrefix (goTrimSpace res.content) "\x7b" ||
      !goHasSuffix (goTrimSpace res.content) "\x7d") = false)
    (hparse : env.parse (goTrimSpace res.content) = .error e) :
    runLoop env (fuel + 1) prompt counts =
      runLoop env fuel (appendMsg prompt (userTextMessage (invalidFinalMsg e))) counts := by
  simp only [runLoop, hllm, hnc, List.isEmpty_nil, if_true, hgood, Bool.false_eq_true,
    if_false, hparse]

theorem structural_gate_invalid (env : Env) (fuel : Nat) (prompt : Prompt)
    (counts : String → Nat) (res : Response) (plan : MealPlan)
    (hllm : env.llm prompt = .ok res) (hnc : res.toolCalls = [])
    (hgood : (goTrimSpace res.content == "" ||
      !goHasPrefix (goTrimSpace res.content) "\x7b" ||
      !goHasSuffix (goTrimSpace res.content) "\x7d") = false)
    (hparse : env.parse (goTrimSpace res.content) = .ok plan)
    (hinvalid : plan.IsValid = false) :
    runLoop env (fuel + 1) prompt counts =
      runLoop env fuel (appendMsg prompt (userTextMessage (invalidFinalMsg "<nil>"))) counts := by
  simp only [runLoop, hllm, hnc, List.isEmpty_nil, if_true, hgood, Bool.false_eq_true,
    if_false, hparse, hinvalid, Bool.not_false, if_true]

/-- C5 (amended): the structural gate accepts exactly the plans with
non-empty days, non-empty meals per day, non-empty meal id and name,
positive servings, and — in addition to what the claim lists — a non-empty
summary; any JSON-shaped final-candidate text that fails to parse, or
parses to a plan violating this invariant, yields exactly one corrective
(`invalid_final_json`) message embedding the parse/shape error and another
loop iteration (not an error); and whenever a run returns a non-empty
output, that output parses to a plan that passed the structural gate (and
the feasibility check): a plan violating the invariant is never accepted. -/
theorem structural_gate_characterization :
    (∀ mp : MealPlan, mp.IsValid = true ↔ specStructuralInvariant mp ∧ mp.summary ≠ "") ∧
    (∀ (env : Env) (fuel : Nat) (prompt : Prompt) (counts : String → Nat) (res : Response)
      (e : String), env.llm prompt = .ok res → res.toolCalls = [] →
      (goTrimSpace res.content == "" || !goHasPrefix (goTrimSpace res.content) "\x7b" ||
        !goHasSuffix (goTrimSpace res.content) "\x7d") = false →
      env.parse (goTrimSpace res.content) = .error e →
      runLoop env (fuel + 1) prompt counts =
        runLoop env fuel (appendMsg prompt (userTextMessage (invalidFinalMsg e))) counts) ∧
    (∀ (env : Env) (fuel : Nat) (prompt : Prompt) (counts : String → Nat) (res : Response)
      (plan : MealPlan), env.llm prompt = .ok res → res.toolCalls = [] →
      (goTrimSpace res.content == "" || !goHasPrefix (goTrimSpace res.content) "\x7b" ||
        !goHasSuffix (goTrimSpace res.content) "\x7d") = false →
      env.parse (goTrimSpace res.content) = .ok plan → plan.IsValid = false →
      runLoop env (fuel + 1) prompt counts =
        runLoop env fuel
          (appendMsg prompt (userTextMessage (invalidFinalMsg "<nil>"))) counts) ∧
    (∀ (env : Env) (fuel : Nat) (prompt : Prompt) (counts : String → Nat) (out : String),
      (runLoop env fuel prompt counts).1 = .ok out → out ≠ "" →
      ∃ mp, env.parse out = .ok mp ∧ mp.IsValid = true ∧
        (checkFeasiblePlan mp env.pantry env.recipes).1 = true) :=
  ⟨isValid_iff,
   fun env fuel prompt counts res e hllm hnc hgood hparse =>
     structural_gate_parse_error env fuel prompt counts res e hllm hnc hgood hparse,
   fun env fuel prompt counts res plan hllm hnc hgood hparse hinvalid =>
     structural_gate_invalid env fuel prompt counts res plan hllm hnc hgood hparse hinvalid,
   fun env => runLoop_accept_sound env⟩

/-- Witness for C5 (amended) at a concrete valid plan, a concrete
parse-failure run, a concrete invalid-plan run, and a concrete accepting
run. -/
theorem structural_gate_characterization_witness :
    ((MealPlan.mk "ok" [DayPlan.mk 1 [Meal.mk "r" "x" 1]]).IsValid = true ↔
      specStructuralInvariant (MealPlan.mk "ok" [DayPlan.mk 1 [Meal.mk "r" "x" 1]]) ∧
        (MealPlan.mk "ok" [DayPlan.mk 1 [Meal.mk "r" "x" 1]]).summary ≠ "") ∧
    (runLoop (Env.mk (fun _ => .ok ⟨"\x7b\x7d", []⟩) (fun _ => .error "nope")
        (fun _ => .error "boom") [] []) 1 ⟨[]⟩ (fun _ => 0) =
      runLoop (Env.mk (fun _ => .ok ⟨"\x7b\x7d", []⟩) (fun _ => .error "nope")
        (fun _ => .error "boom") [] []) 0
        (appendMsg ⟨[]⟩ (userTextMessage (invalidFinalMsg "boom"))) (fun _ => 0)) ∧
    (runLoop (Env.mk (fun _ => .ok ⟨"\x7b\x7d", []⟩) (fun _ => .error "nope")
        (fun _ => .ok (MealPlan.mk "" [])) [] []) 1 ⟨[]⟩ (fun _ => 0) =
      runLoop (Env.mk (fun _ => .ok ⟨"\x7b\x7d", []⟩) (fun _ => .error "nope")
        (fun _ => .ok (MealPlan.mk "" [])) [] []) 0
        (appendMsg ⟨[]⟩ (userTextMessage (invalidFinalMsg "<nil>"))) (fun _ => 0)) ∧
    (∃ mp, (Env.mk (fun _ => .ok ⟨"\x7b\x7d", []⟩) (fun _ => .error "nope")
        (fun _ => .ok (MealPlan.mk "ok" [DayPlan.mk 1 [Meal.mk "r" "x" 1]])) []
        [RecipeSrc.mk "r" 1 []]).parse "\x7b\x7d" = .ok mp ∧ mp.IsValid = true ∧
      (checkFeasiblePlan mp [] [RecipeSrc.mk "r" 1 []]).1 = true) :=
  ⟨structural_gate_characterization.1 (MealPlan.mk "ok" [DayPlan.mk 1 [Meal.mk "r" "x" 1]]),
   structural_gate_characterization.2.1
     (Env.mk (fun _ => .ok ⟨"\x7b\x7d", []⟩) (fun _ => .error "nope")
       (fun _ => .error "boom") [] []) 0 ⟨[]⟩ (fun _ => 0) ⟨"\x7b\x7d", []⟩ "boom"
     rfl rfl (by decide) rfl,
   structural_gate_characterization.2.2.1
     (Env.mk (fun _ => .ok ⟨"\x7b\x7d", []⟩) (fun _ => .error "nope")
       (fun _ => .ok (MealPlan.mk "" [])) [] []) 0 ⟨[]⟩ (fun _ => 0) ⟨"\x7b\x7d", []⟩
     (MealPlan.mk "" []) rfl rfl (by decide) rfl rfl,
   structural_gate_characterization.2.2.2
     (Env.mk (fun _ => .ok ⟨"\x7b\x7d", []⟩) (fun _ => .error "nope")
       (fun _ => .ok (MealPlan.mk "ok" [DayPlan.mk 1 [Meal.mk "r" "x" 1]])) []
       [RecipeSrc.mk "r" 1 []]) 1 ⟨[]⟩ (fun _ => 0) "\x7b\x7d" rfl (by decide)⟩

/-- Witness for C1 at a concrete input. -/
theorem checkFeasible_sound_witness :
    ((checkFeasiblePlan (MealPlan.mk "s" [DayPlan.mk 1 [Meal.mk "r" "x" 1]]) []
        [RecipeSrc.mk "r" 1 []]).1 = true ↔
      (checkFeasiblePlan (MealPlan.mk "s" [DayPlan.mk 1 [Meal.mk "r" "x" 1]]) []
        [RecipeSrc.mk "r" 1 []]).2 = []) ∧
    ((checkFeasiblePlan (MealPlan.mk "s" [DayPlan.mk 1 [Meal.mk "r" "x" 1]]) []
        [RecipeSrc.mk "r" 1 []]).1 = true →
      Covered (buildPantryIdx [])
        ((aggState (MealPlan.mk "s" [DayPlan.mk 1 [Meal.mk "r" "x" 1]])
          [RecipeSrc.mk "r" 1 []]).required)) :=
  checkFeasible_sound (MealPlan.mk "s" [DayPlan.mk 1 [Meal.mk "r" "x" 1]]) []
    [RecipeSrc.mk "r" 1 []]

/-- Witness for C6 at a concrete two-unit conflict (`egg` demanded in
`count`, then in `dozen`). -/
theorem unit_conflict_once_witness :
    ((aggState (MealPlan.mk "s" [DayPlan.mk 1 [Meal.mk "r1" "X" 1]])
        [RecipeSrc.mk "r1" 1 [NeedIng.mk "egg" 2 "count" false,
          NeedIng.mk "egg" 1 "dozen" false]]).conflicted).contains "egg" = true ∧
    conflictCount "egg" (fullProblems (MealPlan.mk "s" [DayPlan.mk 1 [Meal.mk "r1" "X" 1]]) []
        [RecipeSrc.mk "r1" 1 [NeedIng.mk "egg" 2 "count" false,
          NeedIng.mk "egg" 1 "dozen" false]]) = 1 :=
  ⟨rfl,
   (unit_conflict_once (MealPlan.mk "s" [DayPlan.mk 1 [Meal.mk "r1" "X" 1]]) []
      [RecipeSrc.mk "r1" 1 [NeedIng.mk "egg" 2 "count" false,
        NeedIng.mk "egg" 1 "dozen" false]] "egg" rfl).1⟩

end PantryAgent
